import Mathlib

/-!
Verification development for the rocket-lamb adapter: a shallow embedding of
`src/request_ext.rs` and `src/handler.rs` (path resolution, query
reattachment, request/response translation, and the lazy client lifecycle),
together with proofs of the specified properties.

Strings are modelled as `List Char`; Rust byte/char index distinctions are
immaterial for the properties at hand.  Rust panics (`panic!`, `unwrap`,
`expect`) are modelled by `Option`/`none`; recoverable errors
(`RocketLambError`) by `Except`.
-/

namespace RocketLamb

/-- Strings, modelled as lists of characters. -/
abbrev Str := List Char

/-- `occursAtB hay needle i` holds when `needle` occurs as a contiguous
substring of `hay` starting at index `i` (with `i + needle.length` within
bounds, matching Rust's `str::find`/`str::rfind` match positions). -/
def occursAtB (hay needle : Str) (i : Nat) : Bool :=
  decide (i + needle.length ≤ hay.length) && ((hay.drop i).take needle.length == needle)

/-- Model of Rust `str::find` for substring needles: index of the first
occurrence. -/
def strFind (hay needle : Str) : Option Nat :=
  (List.range (hay.length + 1)).find? (occursAtB hay needle)

/-- Model of Rust `str::rfind` for substring needles: index of the last
occurrence. -/
def strRfind (hay needle : Str) : Option Nat :=
  (List.range (hay.length + 1)).reverse.find? (occursAtB hay needle)

/-- Model of Rust `str::ends_with`. -/
def strEndsWith (hay needle : Str) : Bool :=
  decide (needle.length ≤ hay.length) && (hay.drop (hay.length - needle.length) == needle)

/-- Model of Rust `str::contains` for substring needles. -/
def strContainsSub (hay needle : Str) : Bool :=
  (strFind hay needle).isSome

/-- Model of Rust `str::split` on a single separator character: splits into
the (possibly empty) segments between separators; the empty string yields one
empty segment, mirroring Rust's `"".split(c) == [""]`. -/
def strSplit (sep : Char) : Str → List Str
  | [] => [[]]
  | c :: rest =>
    if c = sep then [] :: strSplit sep rest
    else
      match strSplit sep rest with
      | s :: ss => (c :: s) :: ss
      | [] => [[c]]

theorem occursAtB_le (hay needle : Str) (i : Nat) (h : occursAtB hay needle i = true) :
    i ≤ hay.length := by
  have h1 := (Bool.and_eq_true _ _).mp h
  have h2 := of_decide_eq_true h1.1
  omega

theorem find_rev_range (p : Nat → Bool) (n : Nat) (i : Nat) :
    ((List.range (n + 1)).reverse.find? p = some i) ↔
      (i ≤ n ∧ p i = true ∧ ∀ j, j ≤ n → p j = true → j ≤ i) := by
  induction n with
  | zero =>
    simp only [List.range_succ, List.range_zero, List.nil_append, List.reverse_cons,
      List.reverse_nil, List.nil_append, List.find?]
    cases hp : p 0 with
    | false =>
      simp only [List.find?_nil]
      constructor
      · intro h; cases h
      · rintro ⟨hi, hpi, _⟩
        interval_cases i
        rw [hp] at hpi; cases hpi
    | true =>
      simp only [List.find?_nil, Option.some.injEq]
      constructor
      · rintro rfl
        exact ⟨Nat.le_refl 0, hp, fun j hj _ => hj⟩
      · rintro ⟨hi, _, _⟩
        omega
  | succ n ih =>
    rw [List.range_succ, List.reverse_append, List.reverse_singleton, List.singleton_append,
      List.find?_cons]
    cases hp : p (n + 1) with
    | true =>
      simp only [Option.some.injEq]
      constructor
      · rintro rfl
        exact ⟨Nat.le_refl _, hp, fun j hj _ => hj⟩
      · rintro ⟨hi, _, hmax⟩
        have := hmax (n + 1) (Nat.le_refl _) hp
        omega
    | false =>
      rw [ih]
      constructor
      · rintro ⟨hi, hpi, hmax⟩
        refine ⟨Nat.le_succ_of_le hi, hpi, fun j hj hpj => ?_⟩
        rcases Nat.lt_or_ge j (n + 1) with hlt | hge
        · exact hmax j (by omega) hpj
        · have : j = n + 1 := by omega
          rw [this, hp] at hpj; cases hpj
      · rintro ⟨hi, hpi, hmax⟩
        have hin : i ≤ n := by
          rcases Nat.lt_or_ge i (n + 1) with hlt | hge
          · omega
          · have : i = n + 1 := by omega
            rw [this, hp] at hpi; cases hpi
        exact ⟨hin, hpi, fun j hj hpj => hmax j (by omega) hpj⟩

theorem strRfind_eq_some_iff (hay needle : Str) (i : Nat) :
    strRfind hay needle = some i ↔
      (occursAtB hay needle i = true ∧ ∀ j, occursAtB hay needle j = true → j ≤ i) := by
  rw [strRfind, find_rev_range]
  constructor
  · rintro ⟨_, hpi, hmax⟩
    exact ⟨hpi, fun j hpj => hmax j (occursAtB_le hay needle j hpj) hpj⟩
  · rintro ⟨hpi, hmax⟩
    exact ⟨occursAtB_le hay needle i hpi, hpi, fun j _ hpj => hmax j hpj⟩

theorem strRfind_eq_none_iff (hay needle : Str) :
    strRfind hay needle = none ↔ ∀ j, occursAtB hay needle j = false := by
  rw [strRfind, List.find?_eq_none]
  constructor
  · intro h j
    cases hp : occursAtB hay needle j with
    | false => rfl
    | true =>
      have hle := occursAtB_le hay needle j hp
      have hmem : j ∈ List.range (hay.length + 1) := List.mem_range.mpr (by omega)
      exact absurd hp (h j (List.mem_reverse.mpr hmem))
  · intro h x _
    simpa using h x

theorem strRfind_le (hay needle : Str) (i : Nat) (h : strRfind hay needle = some i) :
    i ≤ hay.length := by
  have := ((strRfind_eq_some_iff hay needle i).mp h).1
  exact occursAtB_le hay needle i this

theorem occursAtB_nil (hay : Str) (i : Nat) :
    occursAtB hay [] i = decide (i ≤ hay.length) := by
  simp [occursAtB]

theorem strRfind_nil (hay : Str) : strRfind hay [] = some hay.length := by
  rw [strRfind_eq_some_iff]
  constructor
  · simp [occursAtB_nil]
  · intro j hj
    rw [occursAtB_nil] at hj
    exact of_decide_eq_true hj

theorem strSplit_headD (sep : Char) (l : Str) :
    (strSplit sep l).headD [] = l.takeWhile (fun c => !(c == sep)) := by
  induction l with
  | nil => rfl
  | cons c rest ih =>
    by_cases h : c = sep
    · subst h
      simp [strSplit, List.takeWhile_cons]
    · rw [strSplit]
      simp only [if_neg h]
      rw [List.takeWhile_cons]
      have hc : (!(c == sep)) = true := by simp [h]
      rw [hc]
      simp only [ite_true, cond_true]
      cases hsplit : strSplit sep rest with
      | nil =>
        rw [hsplit] at ih
        simp only [List.headD_nil] at ih
        simp [← ih]
      | cons s ss =>
        rw [hsplit] at ih
        simp only [List.headD_cons] at ih
        simp [ih]

/-! ## Data model

`Config`, `BasePathBehaviour`, `ResponseType` and `RocketLambError` are
declared in `config.rs` / `error.rs`.  Modelled from the spec:
`basePathMode ∈ {Include, Exclude, RemountAndInclude}`; `responseTypes` maps
lowercase content-type strings to a body encoding in `{Auto, Text, Binary}`;
`defaultResponseType` is a body encoding; errors are
`InvalidRequest{reason}` and `InvalidResponse{reason}`.  (`include` is a Lean
keyword, hence the constructor names `incl`/`excl`.) -/

/-- Modelled from the spec: `basePathMode ∈ {Include, Exclude, RemountAndInclude}`
(`BasePathBehaviour` in `config.rs`, which is not under `src/`). -/
inductive BasePathBehaviour where
  | incl
  | excl
  | remountAndInclude
deriving DecidableEq

/-- Modelled from the spec: body encoding `∈ {Auto, Text, Binary}`
(`ResponseType` in `config.rs`, which is not under `src/`). -/
inductive ResponseType where
  | auto
  | text
  | binary
deriving DecidableEq

/-- Modelled from the spec: the immutable configuration — base-path mode,
content-type → body-encoding map (lookup by lowercase content type), and
default body encoding (`Config` in `config.rs`, which is not under `src/`). -/
structure Config where
  base_path_behaviour : BasePathBehaviour
  response_types : List (Str × ResponseType)
  default_response_type : ResponseType

/-- Modelled from the spec: error kinds `InvalidRequest{reason}` and
`InvalidResponse{reason}` (`RocketLambError` in `error.rs`, which is not
under `src/`). -/
inductive RocketLambError where
  | invalidRequest (reason : Str)
  | invalidResponse (reason : Str)
deriving DecidableEq

/-- The request-context variant of the incoming event
(`lamedh_http::request::RequestContext` as matched in `base_path`):
API Gateway V1 carries `stage` and `resource_path`, V2 carries `stage` and
`http.path`, ALB carries neither. -/
inductive RequestContext where
  | apiGatewayV1 (stage : Option Str) (resource_path : Option Str)
  | apiGatewayV2 (stage : Option Str) (path : Option Str)
  | alb
deriving DecidableEq

/-- The incoming event, with exactly the fields `request_ext.rs` and
`handler.rs` read.  `hostHeader` models
`req.headers().get(HOST).and_then(|h| h.to_str().ok())`: `none` when the
HOST header is absent or not decodable as text.  `query` models the
query-parameter multimap: distinct keys in iteration order, each with its
values in original order.  `headers` carries raw header-value bytes. -/
structure Request where
  context : RequestContext
  uriPath : Str
  hostHeader : Option Str
  pathParameters : List (Str × Str)
  query : List (Str × List Str)
  headers : List (Str × List Nat)
  method : Str
  body : List Nat

/-- Whether the request context is the load-balancer variant
(`matches!(self.request_context(), RequestContext::Alb(_))`). -/
def isAlb (req : Request) : Bool :=
  match req.context with
  | RequestContext.alb => true
  | _ => false

/-! ## `src/request_ext.rs` -/

/-- `is_default_api_gateway_url` (`request_ext.rs`): the host header ends
with `".amazonaws.com"` and contains `".execute-api."`; absent or
undecodable host yields `false`. -/
def is_default_api_gateway_url (req : Request) : Bool :=
  match req.hostHeader with
  | some h => strEndsWith h (".amazonaws.com").toList && strContainsSub h (".execute-api.").toList
  | none => false

/-- The `(stage, path)` pair extracted from the request context at the top of
`base_path` (`request_ext.rs` lines 31–43). -/
def stage_and_path (req : Request) : Option Str × Option Str :=
  match req.context with
  | RequestContext.apiGatewayV1 stage resource_path => (stage, resource_path)
  | RequestContext.apiGatewayV2 stage path => (stage, path)
  | RequestContext.alb => (none, none)

/-- `populate_resource_path` (`request_ext.rs`): replace each `\x7bname\x7d` or
`\x7bname+\x7d` segment of the resource-path template by the named path
parameter; `none` models the `panic!` on a missing parameter. -/
def populate_resource_path (req : Request) (resource_path : Str) : Option Str :=
  ((strSplit '/' resource_path).mapM (fun segment =>
    if segment.head? = some '\x7b' then
      let e := if strEndsWith segment ['+', '\x7d'] then 2 else 1
      let param := (segment.drop 1).take (segment.length - e - 1)
      List.lookup param req.pathParameters
    else
      some segment)).map (List.intercalate ['/'])

/-- `base_path` (`request_ext.rs`): `"/" + stage` on a default API-gateway
URL; otherwise everything before the last (`rfind`) occurrence of the
populated resource path in the raw path.  `none` models the two `panic!`
paths (missing path parameter; segment not found). -/
def base_path (req : Request) : Option Str :=
  let sp := stage_and_path req
  if is_default_api_gateway_url req then
    some ('/' :: (sp.1.getD []))
  else
    match populate_resource_path req (sp.2.getD []) with
    | none => none
    | some path =>
      match strRfind req.uriPath path with
      | none => none
      | some resource_path_index => some (req.uriPath.take resource_path_index)

/-- `full_path` (`request_ext.rs`): the raw URI path for ALB or non-default
URLs; otherwise `base_path` followed by the raw URI path. -/
def full_path (req : Request) : Option Str :=
  if isAlb req || !is_default_api_gateway_url req then
    some req.uriPath
  else
    (base_path req).map (fun bp => bp ++ req.uriPath)

/-- `api_path` (`request_ext.rs`): the raw URI path for ALB or default URLs;
otherwise the raw URI path with the first `base_path().len()` characters
stripped. -/
def api_path (req : Request) : Option Str :=
  if isAlb req || is_default_api_gateway_url req then
    some req.uriPath
  else
    (base_path req).map (fun bp => req.uriPath.drop bp.length)

/-! ## `src/handler.rs` -/

/-- The path selected at the top of `get_path_and_query` according to
`config.base_path_behaviour`: `Include`/`RemountAndInclude` use `full_path`,
`Exclude` uses `api_path` (the `dbg!` wrappers are identity). -/
def selected_path (config : Config) (req : Request) : Option Str :=
  match config.base_path_behaviour with
  | BasePathBehaviour.incl => full_path req
  | BasePathBehaviour.remountAndInclude => full_path req
  | BasePathBehaviour.excl => api_path req

/-- `query.get_all(key).unwrap()`: all values of a key of the query
multimap.  The `unwrap` panic is unreachable because the key always comes
from iterating the same map; the `getD []` default is likewise never used
there. -/
def getAll (q : List (Str × List Str)) (key : Str) : List Str :=
  (List.lookup key q).getD []

/-- `get_path_and_query` (`handler.rs`): the selected path followed by the
reattached query string, iterating keys, then each key's values via
`get_all`, with separator `?` before the first appended pair and `&`
thereafter.  Parametrized by the external percent-encoder `enc` (Rocket's
`RawStr::percent_encode`), applied to both key and value. -/
def get_path_and_query (enc : Str → Str) (config : Config) (req : Request) :
    Option Str :=
  (selected_path config req).map (fun uri =>
    (req.query.foldl
      (fun acc kv =>
        (getAll req.query kv.1).foldl
          (fun a v => (a.1 ++ (a.2 :: (enc kv.1 ++ '=' :: enc v)), '&'))
          acc)
      (uri, '?')).1)

/-- Abstract model of a `rocket::Rocket<Build>` application: either an
original application definition, or an application whose own route set has
additionally been mounted under a base path
(`r.mount(&base_path, routes)` with `routes` cloned from `r`). -/
inductive Rocket where
  | app (id : Nat)
  | mounted (basePath : Str) (r : Rocket)
deriving DecidableEq

/-- Abstract model of `rocket::local::asynchronous::Client`
(`Client::untracked(rocket)`): the dispatch handle, wrapping the rocket it
was built from. -/
structure Client where
  rocket : Rocket
deriving DecidableEq

/-- `LazyClient` (`handler.rs`): the lifecycle cell held inside the
`Mutex`. -/
inductive LazyClient where
  | uninitialized (r : Option Rocket)
  | ready (c : Client)
deriving DecidableEq

/-- The client construction inside the `Uninitialized` branch of
`get_client_from_lazy`: remount the application's own routes under the
resolved base path when the behaviour is `RemountAndInclude` and that base
path is non-empty; otherwise build the client from the application as
defined. -/
def built_client (config : Config) (bp : Str) (r : Rocket) : Client :=
  if config.base_path_behaviour = BasePathBehaviour.remountAndInclude ∧ bp ≠ [] then
    ⟨Rocket.mounted bp r⟩
  else
    ⟨r⟩

/-- `get_client_from_lazy` (`handler.rs`), as the serialized state
transition of one invocation (the tokio mutex is held for the whole body,
so concurrent invocations execute this atomically, one after another):
from the cell's current state, produce the returned handle, the cell's next
state, and whether a client was constructed during the call.  `none` models
the `expect` panic on an already-taken `Uninitialized` payload and the
panics reachable through `base_path`. -/
def get_client_from_lazy (config : Config) (req : Request) :
    LazyClient → Option (Client × LazyClient × Bool)
  | LazyClient.ready c => some (c, LazyClient.ready c, false)
  | LazyClient.uninitialized opt =>
    match opt with
    | none => none
    | some r =>
      match base_path req with
      | none => none
      | some bp =>
        some (built_client config bp r,
          LazyClient.ready (built_client config bp r), true)

/-- A sequence of invocations hitting the lifecycle cell, in the order in
which the mutex serializes them: the handle observed by each invocation,
the final cell state, and the total number of client constructions. -/
def runAll (config : Config) : List Request → LazyClient →
    Option (List Client × LazyClient × Nat)
  | [], st => some ([], st, 0)
  | req :: rest, st =>
    match get_client_from_lazy config req st with
    | none => none
    | some (c, st1, b) =>
      match runAll config rest st1 with
      | none => none
      | some (cs, st2, n) => some (c :: cs, st2, n + (if b then 1 else 0))

/-- `rocket::http::Method`, the target of `to_rocket_method`. -/
inductive Method where
  | get
  | put
  | post
  | delete
  | options
  | head
  | trace
  | connect
  | patch
deriving DecidableEq

/-- `to_rocket_method` (`handler.rs`): the closed enumeration of supported
methods; any other method fails with `InvalidRequest` naming the method. -/
def to_rocket_method (method : Str) : Except RocketLambError Method :=
  if method = ("GET").toList then Except.ok Method.get
  else if method = ("PUT").toList then Except.ok Method.put
  else if method = ("POST").toList then Except.ok Method.post
  else if method = ("DELETE").toList then Except.ok Method.delete
  else if method = ("OPTIONS").toList then Except.ok Method.options
  else if method = ("HEAD").toList then Except.ok Method.head
  else if method = ("TRACE").toList then Except.ok Method.trace
  else if method = ("CONNECT").toList then Except.ok Method.connect
  else if method = ("PATCH").toList then Except.ok Method.patch
  else Except.error (RocketLambError.invalidRequest
    (("unknown method \x27").toList ++ method ++ ("\x27").toList))

/-- Abstract model of `rocket::local::asynchronous::LocalRequest` as
assembled by `create_rocket_request`: method, dispatch URI, decoded headers
in order, body bytes. -/
structure LocalRequest where
  method : Method
  uri : Str
  headers : List (Str × Str)
  body : List Nat
deriving DecidableEq

/-- The header-copying loop of `create_rocket_request`: each raw header
value is decoded as text by the external decoder `toStr`
(`http::HeaderValue::to_str`); the first failure aborts with
`InvalidRequest` naming the offending header. -/
def decodeHeaders (toStr : List Nat → Option Str) :
    List (Str × List Nat) → Except RocketLambError (List (Str × Str))
  | [] => Except.ok []
  | (n, v) :: rest =>
    match toStr v with
    | none => Except.error (RocketLambError.invalidRequest
        (("invalid value for header \x27").toList ++ n ++ ("\x27").toList))
    | some s => (decodeHeaders toStr rest).map (fun hs => (n, s) :: hs)

/-- `create_rocket_request` (`handler.rs`): method mapping, then the
dispatch URI (the outer `Option` models the panics reachable through
`get_path_and_query`), then header copying, then the body moved across
unmodified (`local_req.set_body(req.into_body())`). -/
def create_rocket_request (toStr : List Nat → Option Str) (enc : Str → Str)
    (config : Config) (req : Request) :
    Option (Except RocketLambError LocalRequest) :=
  match to_rocket_method req.method with
  | Except.error e => some (Except.error e)
  | Except.ok method =>
    match get_path_and_query enc config req with
    | none => none
    | some uri =>
      match decodeHeaders toStr req.headers with
      | Except.error e => some (Except.error e)
      | Except.ok hs => some (Except.ok ⟨method, uri, hs, req.body⟩)

/-- An outgoing response body
(`aws_lambda_events::encodings::Body`). -/
inductive Body where
  | empty
  | text (s : Str)
  | binary (b : List Nat)
deriving DecidableEq

/-- The framework's response as read by `create_lambda_response`: status,
headers in order, and the body bytes (`local_res.into_bytes()`; `none` when
the response carries no body). -/
structure LocalResponse where
  status : Nat
  headers : List (Str × Str)
  bytes : Option (List Nat)
deriving DecidableEq

/-- The assembled outgoing response. -/
structure LambdaResponse where
  status : Nat
  headers : List (Str × Str)
  body : Body
deriving DecidableEq

/-- Character-wise lowercasing, modelling `str::to_lowercase` (faithful on
the ASCII content-type strings this code compares). -/
def lowerStr (s : Str) : Str := s.map Char.toLower

/-- `headers().get_one(name)` (Rocket `HeaderMap::get_one`): the first
value of the named header; header names compare case-insensitively (`name`
is given lowercase). -/
def getOne (headers : List (Str × Str)) (name : Str) : Option Str :=
  (headers.find? (fun h => lowerStr h.1 == name)).map (fun h => h.2)

/-- The declared-encoding computation inside `create_lambda_response`
(`handler.rs` lines 143–151): the content-type header value (empty when
absent, `unwrap_or_default`), its first `split(';')` segment (`next()` is
always `Some`), lowercased, looked up in `config.response_types`, falling
back to `config.default_response_type`. -/
def response_type_of (config : Config) (headers : List (Str × Str)) : ResponseType :=
  let ct := (getOne headers (("content-type").toList)).getD []
  (List.lookup (lowerStr ((strSplit ';' ct).headD [])) config.response_types).getD
    config.default_response_type

/-- The body decision of `create_lambda_response` (`handler.rs` lines
152–165): no bytes → `Empty`; `Auto` → `Text` on UTF-8 success, else
`Binary` of the original bytes (`e.into_bytes()`); `Text` → `Text`, failing
with `InvalidResponse` when the bytes are not valid UTF-8 (the `?`
operator); `Binary` → `Binary` of the original bytes. -/
def response_body (decode : List Nat → Option Str) (config : Config)
    (local_res : LocalResponse) : Except RocketLambError Body :=
  match local_res.bytes with
  | some b =>
    match response_type_of config local_res.headers with
    | ResponseType.auto =>
      match decode b with
      | some s => Except.ok (Body.text s)
      | none => Except.ok (Body.binary b)
    | ResponseType.text =>
      match decode b with
      | some s => Except.ok (Body.text s)
      | none => Except.error (RocketLambError.invalidResponse
          (("failed to read response body as UTF-8").toList))
    | ResponseType.binary => Except.ok (Body.binary b)
  | none => Except.ok Body.empty

/-- `create_lambda_response` (`handler.rs`): status and headers are copied
in order; the body is decided from the declared encoding; assembly fails on
a mandated-Text body that is not valid UTF-8 (the `?` on the Text decode
fires before `builder.body`, hence before any header-assembly failure) or
on header-assembly failure at `builder.body(body)`.  Parametrized by the
external UTF-8 decoder `decode` (`String::from_utf8`) and the builder's
header validity check `hdrOk` (`http::response::Builder`). -/
def create_lambda_response (decode : List Nat → Option Str)
    (hdrOk : Str × Str → Bool) (config : Config) (local_res : LocalResponse) :
    Except RocketLambError LambdaResponse :=
  match response_body decode config local_res with
  | Except.error e => Except.error e
  | Except.ok body =>
    if local_res.headers.all hdrOk then
      Except.ok ⟨local_res.status, local_res.headers, body⟩
    else
      Except.error (RocketLambError.invalidResponse
        (("header assembly failure").toList))

/-! ## Spec-words definitions (for refinement comparisons) -/

/-- Spec-words variant of `base_path` for claim C1: identical to
`base_path` except that it locates the FIRST occurrence (`strFind`) of the
reconstructed segment, as the claim states. -/
def base_path_spec_first (req : Request) : Option Str :=
  let sp := stage_and_path req
  if is_default_api_gateway_url req then
    some ('/' :: (sp.1.getD []))
  else
    match populate_resource_path req (sp.2.getD []) with
    | none => none
    | some path =>
      match strFind req.uriPath path with
      | none => none
      | some i => some (req.uriPath.take i)

/-- One rendered query pair: separator, encoded key, `=`, encoded value. -/
def renderPair (enc : Str → Str) (sep : Char) (p : Str × Str) : Str :=
  sep :: (enc p.1 ++ '=' :: enc p.2)

/-- Spec-words rendering of a flat list of query pairs: the first pair
takes the given separator, all later pairs take `&`. -/
def renderFrom (enc : Str → Str) (sep : Char) : List (Str × Str) → Str
  | [] => []
  | p :: rest => renderPair enc sep p ++ rest.flatMap (renderPair enc '&')

/-- Spec-words rendering of the reattached query string: `?` before the
first pair, `&` thereafter. -/
def renderPairs (enc : Str → Str) (ps : List (Str × Str)) : Str :=
  renderFrom enc '?' ps

/-- The query multimap flattened to `(key, value)` pairs: every value of
every key exactly once, keys in iteration order, values in original order
per key. -/
def flattenQuery (q : List (Str × List Str)) : List (Str × Str) :=
  q.flatMap (fun kv => kv.2.map (fun v => (kv.1, v)))

/-- Spec-words declared-encoding computation (claim C7): the content-type
header value (empty string if absent), the substring before the first `;`,
lowercased, looked up in `Config.responseTypes`, with
`Config.defaultResponseType` when the lookup finds nothing. -/
def declared_encoding_spec (config : Config) (headers : List (Str × Str)) :
    ResponseType :=
  let ct := (getOne headers (("content-type").toList)).getD []
  let beforeSemi := ct.takeWhile (fun c => !(c == ';'))
  (List.lookup (lowerStr beforeSemi) config.response_types).getD
    config.default_response_type

/-! ## Concrete requests and configurations used by witnesses -/

/-- A GET request skeleton for concrete witnesses. -/
def mkReq (ctx : RequestContext) (path : Str) (host : Option Str) : Request :=
  { context := ctx, uriPath := path, hostHeader := host, pathParameters := [],
    query := [], headers := [], method := ("GET").toList, body := [] }

/-! ## Claim C1 -/

/-- Claim C1 (amended): for a custom-domain (non-load-balancer,
non-default-domain) request, `base_path` reconstructs the resource-path
template (aborting when a referenced path parameter is missing), locates
the LAST occurrence of the reconstructed segment in the raw path (aborting
when there is none), and returns everything before that occurrence. -/
theorem C1_base_path_last_occurrence (req : Request)
    (_hAlb : isAlb req = false)
    (hDef : is_default_api_gateway_url req = false) :
    (populate_resource_path req ((stage_and_path req).2.getD []) = none →
      base_path req = none)
    ∧ ∀ p, populate_resource_path req ((stage_and_path req).2.getD []) = some p →
        ((base_path req = none ↔ ∀ i, occursAtB req.uriPath p i = false)
         ∧ ∀ b, base_path req = some b →
             ∃ i, occursAtB req.uriPath p i = true
               ∧ (∀ j, occursAtB req.uriPath p j = true → j ≤ i)
               ∧ b = req.uriPath.take i) := by
  constructor
  · intro hp
    simp [base_path, hDef, hp]
  · intro p hp
    constructor
    · constructor
      · intro hb
        simp only [base_path, hDef, Bool.false_eq_true, if_false, hp] at hb
        cases hr : strRfind req.uriPath p with
        | none => exact fun i => (strRfind_eq_none_iff req.uriPath p).mp hr i
        | some i => rw [hr] at hb; cases hb
      · intro hnone
        simp only [base_path, hDef, Bool.false_eq_true, if_false, hp]
        cases hr : strRfind req.uriPath p with
        | none => rfl
        | some i =>
          have := ((strRfind_eq_some_iff req.uriPath p i).mp hr).1
          rw [hnone i] at this
          cases this
    · intro b hb
      simp only [base_path, hDef, Bool.false_eq_true, if_false, hp] at hb
      cases hr : strRfind req.uriPath p with
      | none => rw [hr] at hb; cases hb
      | some i =>
        rw [hr] at hb
        have hiff := (strRfind_eq_some_iff req.uriPath p i).mp hr
        exact ⟨i, hiff.1, hiff.2, by injection hb with h; exact h.symm⟩

/-- The request refuting claim C1 as stated: custom domain, resource path
`/path`, raw path `/path/path`. -/
def c1Cex : Request :=
  mkReq (RequestContext.apiGatewayV1 none (some (("/path").toList)))
    (("/path/path").toList) none

/-- Claim C1 counterexample: with resource path `/path` and raw path
`/path/path`, the code (`rfind`, last occurrence) yields base path
`/path`, whereas the claimed first-occurrence rule yields the empty
string. -/
theorem C1_counterexample :
    base_path c1Cex = some (("/path").toList)
    ∧ base_path_spec_first c1Cex = some []
    ∧ base_path c1Cex ≠ base_path_spec_first c1Cex := by decide

/-- The custom-domain request exercising claim C1's amended statement. -/
def c1Wit : Request :=
  mkReq (RequestContext.apiGatewayV1 (some (("Prod").toList)) (some (("/path").toList)))
    (("/path/").toList) (some (("api.example.com").toList))

theorem C1_witness :
    ∃ i, occursAtB c1Wit.uriPath (("/path").toList) i = true
      ∧ (∀ j, occursAtB c1Wit.uriPath (("/path").toList) j = true → j ≤ i)
      ∧ ([] : Str) = c1Wit.uriPath.take i :=
  ((C1_base_path_last_occurrence c1Wit (by decide) (by decide)).2
    (("/path").toList) (by decide)).2 [] (by decide)

/-! ## Claim C3 -/

/-- Claim C3 (amended): topology detection looks only at the host header,
so a load-balancer request whose host ends with `.amazonaws.com` and
contains `.execute-api.` IS classified default-domain and (its stage being
absent) gets base path `/`; every other load-balancer request gets base
path equal to the entire raw path — the reconstructed template is empty and
its last occurrence is at the end of the raw path — not the empty
string. -/
theorem C3_alb_base_path (req : Request)
    (h : req.context = RequestContext.alb) :
    base_path req =
      some (if is_default_api_gateway_url req then ['/'] else req.uriPath) := by
  have hsp : stage_and_path req = (none, none) := by
    simp [stage_and_path, h]
  have hpop : populate_resource_path req [] = some [] := rfl
  by_cases hd : is_default_api_gateway_url req
  · simp [base_path, hsp, hd]
  · simp [base_path, hsp, hd, hpop, strRfind_nil, List.take_length]

/-- A load-balancer request with an ordinary host. -/
def c3Alb : Request := mkReq RequestContext.alb (("/path").toList) none

/-- A load-balancer request whose host header looks like a default API
gateway URL. -/
def c3AlbHost : Request :=
  mkReq RequestContext.alb (("/path").toList)
    (some (("x.execute-api.y.amazonaws.com").toList))

/-- Claim C3 counterexample: for a load-balancer request with raw path
`/path`, `base_path` returns `/path` (the whole raw path), not the empty
string; and a load-balancer request with a default-gateway-style host is
classified default-domain by `is_default_api_gateway_url`. -/
theorem C3_counterexample :
    base_path c3Alb = some (("/path").toList)
    ∧ (("/path").toList : Str) ≠ []
    ∧ is_default_api_gateway_url c3AlbHost = true := by decide

theorem C3_witness :
    base_path c3Alb =
      some (if is_default_api_gateway_url c3Alb then ['/'] else c3Alb.uriPath) :=
  C3_alb_base_path c3Alb rfl

/-! ## Claim C9 -/

/-- Claim C9: for a default-domain (non-load-balancer, default
API-gateway-URL) request, the base path is `/` followed by the stage (an
absent or empty stage gives `/`), and the full path is the base path
followed by the raw path. -/
theorem C9_default_domain (req : Request)
    (hAlb : isAlb req = false)
    (hDef : is_default_api_gateway_url req = true) :
    base_path req = some ('/' :: ((stage_and_path req).1.getD []))
    ∧ full_path req = some (('/' :: ((stage_and_path req).1.getD [])) ++ req.uriPath)
    ∧ (((stage_and_path req).1 = none ∨ (stage_and_path req).1 = some []) →
        base_path req = some ['/']) := by
  have hb : base_path req = some ('/' :: ((stage_and_path req).1.getD [])) := by
    simp [base_path, hDef]
  refine ⟨hb, ?_, ?_⟩
  · simp [full_path, hAlb, hDef, hb]
  · rintro (h | h) <;> simp [hb, h]

/-- A default-domain request: stage `Prod`, raw path `/path/`. -/
def c9Req : Request :=
  mkReq (RequestContext.apiGatewayV1 (some (("Prod").toList)) (some (("/path").toList)))
    (("/path/").toList) (some (("abc123.execute-api.us-east-1.amazonaws.com").toList))

theorem C9_witness :
    base_path c9Req = some ('/' :: ((stage_and_path c9Req).1.getD []))
    ∧ full_path c9Req =
        some (('/' :: ((stage_and_path c9Req).1.getD [])) ++ c9Req.uriPath)
    ∧ (((stage_and_path c9Req).1 = none ∨ (stage_and_path c9Req).1 = some []) →
        base_path c9Req = some ['/']) :=
  C9_default_domain c9Req (by decide) (by decide)

/-! ## Claim C10 -/

/-- Claim C10: for every non-load-balancer request whose base-path
computation succeeds, the three path views cohere: the full path is the
base path followed by the api path (so the base path is a prefix of the
full path), and for a custom-domain request the api path is the raw path
with exactly the base path removed. -/
theorem C10_path_coherence (req : Request) (b : Str)
    (hAlb : isAlb req = false)
    (hb : base_path req = some b) :
    ∃ a, api_path req = some a
      ∧ full_path req = some (b ++ a)
      ∧ (is_default_api_gateway_url req = false →
          a = req.uriPath.drop b.length) := by
  by_cases hd : is_default_api_gateway_url req
  · refine ⟨req.uriPath, ?_, ?_, ?_⟩
    · simp [api_path, hAlb, hd]
    · simp [full_path, hAlb, hd, hb]
    · intro hcontra; rw [hd] at hcontra; cases hcontra
  · have hd' : is_default_api_gateway_url req = false := by
      simpa using hd
    have hb' := hb
    cases hpop : populate_resource_path req ((stage_and_path req).2.getD []) with
    | none =>
      simp only [base_path, hd', Bool.false_eq_true, if_false, hpop] at hb'
      cases hb'
    | some p =>
      simp only [base_path, hd', Bool.false_eq_true, if_false, hpop] at hb'
      cases hr : strRfind req.uriPath p with
      | none => rw [hr] at hb'; cases hb'
      | some i =>
        rw [hr] at hb'
        have hbi : b = req.uriPath.take i := by
          injection hb' with h; exact h.symm
        have hile : i ≤ req.uriPath.length := strRfind_le _ _ _ hr
        have hlen : b.length = i := by
          rw [hbi, List.length_take]
          exact Nat.min_eq_left hile
        refine ⟨req.uriPath.drop b.length, ?_, ?_, fun _ => rfl⟩
        · simp [api_path, hAlb, hd', hb]
        · have hjoin : b ++ req.uriPath.drop b.length = req.uriPath := by
            rw [hlen, hbi]
            exact List.take_append_drop i req.uriPath
          simp [full_path, hAlb, hd', hjoin]

/-- A custom-domain request with base path `/base-path` and a
path-parameter-bearing resource template. -/
def c10Req : Request :=
  { context :=
      RequestContext.apiGatewayV1 (some (("Prod").toList))
        (some (("/\x7bname\x7d/").toList)),
    uriPath := ("/base-path/path/").toList,
    hostHeader := some (("api.example.com").toList),
    pathParameters := [((("name").toList), (("path").toList))],
    query := [], headers := [], method := ("GET").toList, body := [] }

theorem C10_witness :
    ∃ a, api_path c10Req = some a
      ∧ full_path c10Req = some ((("/base-path").toList) ++ a)
      ∧ (is_default_api_gateway_url c10Req = false →
          a = c10Req.uriPath.drop (("/base-path").toList).length) :=
  C10_path_coherence c10Req (("/base-path").toList) (by decide) (by decide)

/-! ## Claim C2 -/

theorem lookup_self_of_nodup {α β : Type} [BEq α] [LawfulBEq α]
    (q : List (α × β)) (hnd : (q.map Prod.fst).Nodup) (k : α) (v : β)
    (hmem : (k, v) ∈ q) : List.lookup k q = some v := by
  induction q with
  | nil => cases hmem
  | cons kv rest ih =>
    rcases List.mem_cons.mp hmem with heq | hmem'
    · rw [← heq]
      simp [List.lookup]
    · have hk : k ≠ kv.1 := by
        intro hkk
        have : k ∈ rest.map Prod.fst :=
          List.mem_map.mpr ⟨(k, v), hmem', rfl⟩
        rw [List.map_cons, List.nodup_cons] at hnd
        exact hnd.1 (hkk ▸ this)
      have hnd' : (rest.map Prod.fst).Nodup := by
        rw [List.map_cons, List.nodup_cons] at hnd
        exact hnd.2
      cases kv with
      | mk k1 v1 =>
        rw [List.lookup_cons, beq_false_of_ne (by simpa using hk)]
        exact ih hnd' hmem'

theorem renderFrom_nil (enc : Str → Str) (sep : Char) :
    renderFrom enc sep [] = [] := rfl

theorem renderFrom_cons (enc : Str → Str) (sep : Char) (p : Str × Str)
    (rest : List (Str × Str)) :
    renderFrom enc sep (p :: rest)
      = renderPair enc sep p ++ rest.flatMap (renderPair enc '&') := rfl

theorem renderFrom_amp (enc : Str → Str) (ps : List (Str × Str)) :
    renderFrom enc '&' ps = ps.flatMap (renderPair enc '&') := by
  cases ps <;> simp [renderFrom_nil, renderFrom_cons]

theorem renderFrom_append (enc : Str → Str) (sep : Char) (a b : List (Str × Str)) :
    renderFrom enc sep (a ++ b) =
      renderFrom enc sep a ++ renderFrom enc (if a = [] then sep else '&') b := by
  cases a with
  | nil => simp [renderFrom_nil]
  | cons p r =>
    rw [List.cons_append, renderFrom_cons, renderFrom_cons, if_neg (by simp),
      renderFrom_amp, List.flatMap_append, List.append_assoc]

theorem foldl_vals (enc : Str → Str) (k : Str) (vs : List Str) (u : Str) (sep : Char) :
    vs.foldl (fun a v => (a.1 ++ (a.2 :: (enc k ++ '=' :: enc v)), '&')) (u, sep)
      = (u ++ renderFrom enc sep (vs.map (fun v => (k, v))),
         if vs = [] then sep else '&') := by
  induction vs generalizing u sep with
  | nil => simp [renderFrom_nil]
  | cons v rest ih =>
    simp only [List.foldl_cons, List.map_cons]
    rw [ih]
    simp [renderFrom_cons, renderPair, renderFrom_amp, List.append_assoc]

theorem foldl_pairs (enc : Str → Str) (q : List (Str × List Str)) (u : Str) (sep : Char) :
    q.foldl
        (fun acc kv =>
          kv.2.foldl (fun a v => (a.1 ++ (a.2 :: (enc kv.1 ++ '=' :: enc v)), '&')) acc)
        (u, sep)
      = (u ++ renderFrom enc sep (flattenQuery q),
         if flattenQuery q = [] then sep else '&') := by
  induction q generalizing u sep with
  | nil => simp [flattenQuery, renderFrom]
  | cons kv rest ih =>
    simp only [List.foldl_cons]
    rw [foldl_vals, ih]
    have hflat : flattenQuery (kv :: rest)
        = kv.2.map (fun v => (kv.1, v)) ++ flattenQuery rest := by
      simp [flattenQuery]
    rw [hflat, renderFrom_append]
    cases hv : kv.2 with
    | nil => simp [renderFrom_nil, List.append_assoc]
    | cons v vrest => simp [List.append_assoc]

/-- Claim C2: the reattached query string appends, after the selected path,
every value of every key exactly once (keys in iteration order, values in
original order per key), both percent-encoded, with `?` before the first
pair and `&` thereafter; an empty query multimap leaves the selected path
unchanged.  The hypothesis that keys are pairwise distinct reflects the
multimap (`HashMap<String, Vec<String>>`) the code iterates. -/
theorem C2_query_reattachment (enc : Str → Str) (config : Config) (req : Request)
    (uri : Str)
    (hnd : (req.query.map Prod.fst).Nodup)
    (huri : selected_path config req = some uri) :
    get_path_and_query enc config req =
      some (uri ++ renderPairs enc (flattenQuery req.query))
    ∧ (req.query = [] → get_path_and_query enc config req = some uri) := by
  have hext : ∀ (acc : Str × Char), ∀ kv ∈ req.query,
      (getAll req.query kv.1).foldl
          (fun a v => (a.1 ++ (a.2 :: (enc kv.1 ++ '=' :: enc v)), '&')) acc
        = kv.2.foldl
          (fun a v => (a.1 ++ (a.2 :: (enc kv.1 ++ '=' :: enc v)), '&')) acc := by
    intro acc kv hkv
    have hget : getAll req.query kv.1 = kv.2 := by
      rw [getAll, lookup_self_of_nodup req.query hnd kv.1 kv.2 hkv]
      rfl
    rw [hget]
  have hfold :
      (req.query.foldl
        (fun acc kv =>
          (getAll req.query kv.1).foldl
            (fun a v => (a.1 ++ (a.2 :: (enc kv.1 ++ '=' :: enc v)), '&')) acc)
        (uri, '?')).1
        = uri ++ renderPairs enc (flattenQuery req.query) := by
    rw [List.foldl_ext _ _ _ hext, foldl_pairs]
    rfl
  constructor
  · simp only [get_path_and_query, huri, Option.map_some']
    exact congrArg some hfold
  · intro hq
    simp only [get_path_and_query, huri, Option.map_some']
    simp [hq]

/-- A custom-domain request with a repeated-key query multimap. -/
def c2Req : Request :=
  { mkReq
      (RequestContext.apiGatewayV1 (some (("Prod").toList)) (some (("/path").toList)))
      (("/path/").toList) (some (("api.example.com").toList)) with
    query := [((("a").toList), [("1").toList, ("2").toList]),
              ((("b").toList), [("3").toList])] }

/-- The configuration with `Include` base-path behaviour and no
response-type mappings. -/
def c2Cfg : Config :=
  { base_path_behaviour := BasePathBehaviour.incl, response_types := [],
    default_response_type := ResponseType.auto }

theorem C2_witness :
    get_path_and_query id c2Cfg c2Req =
      some ((("/path/").toList) ++ renderPairs id (flattenQuery c2Req.query))
    ∧ (c2Req.query = [] →
        get_path_and_query id c2Cfg c2Req = some (("/path/").toList)) :=
  C2_query_reattachment id c2Cfg c2Req (("/path/").toList) (by decide) (by decide)

/-! ## Claims C4 and C5 -/

theorem runAll_ready (config : Config) (c : Client) (reqs : List Request) :
    runAll config reqs (LazyClient.ready c)
      = some (List.replicate reqs.length c, LazyClient.ready c, 0) := by
  induction reqs with
  | nil => rfl
  | cons req rest ih =>
    simp [runAll, get_client_from_lazy, ih, List.replicate_succ]

theorem mounted_ne (r : Rocket) : ∀ bp : Str, Rocket.mounted bp r ≠ r := by
  induction r with
  | app i => intro bp h; cases h
  | mounted bp2 r2 ih =>
    intro bp h
    injection h with h1 h2
    exact ih bp2 h2

/-- Claim C4: once the cell is `Ready(c)`, every invocation — in any
serialized order — returns the identical handle `c`, performs no
construction, and leaves the cell `Ready(c)` (the transition is never
reversed); moreover any run starting from the `Uninitialized` cell
constructs at most one client, and every invocation of the run observes
exactly the handle held by the final `Ready` state. -/
theorem C4_lifecycle (config : Config) (c : Client) (r : Rocket)
    (reqs : List Request) (res : List Client × LazyClient × Nat)
    (h : runAll config reqs (LazyClient.uninitialized (some r)) = some res) :
    (∀ reqs2 : List Request,
      runAll config reqs2 (LazyClient.ready c)
        = some (List.replicate reqs2.length c, LazyClient.ready c, 0))
    ∧ res.2.2 ≤ 1
    ∧ (∀ x ∈ res.1, res.2.1 = LazyClient.ready x) := by
  refine ⟨fun reqs2 => runAll_ready config c reqs2, ?_⟩
  cases reqs with
  | nil =>
    simp only [runAll] at h
    injection h with h
    rw [← h]
    exact ⟨by simp, by simp⟩
  | cons req rest =>
    cases hbp : base_path req with
    | none =>
      simp [runAll, get_client_from_lazy, hbp] at h
    | some bp =>
      have hstep : get_client_from_lazy config req (LazyClient.uninitialized (some r))
          = some (built_client config bp r,
              LazyClient.ready (built_client config bp r), true) := by
        simp [get_client_from_lazy, hbp]
      simp only [runAll, hstep, runAll_ready] at h
      injection h with h
      rw [← h]
      refine ⟨by simp, ?_⟩
      intro x hx
      simp only [List.mem_cons] at hx
      rcases hx with rfl | hx'
      · rfl
      · rw [List.eq_of_mem_replicate hx']

/-- The result of the single-invocation run used by the C4 witness. -/
def c4Res : List Client × LazyClient × Nat :=
  ([⟨Rocket.app 0⟩], LazyClient.ready ⟨Rocket.app 0⟩, 1)

theorem C4_witness :
    runAll c2Cfg [c1Wit] (LazyClient.uninitialized (some (Rocket.app 0))) = some c4Res
    ∧ c4Res.2.2 ≤ 1 :=
  ⟨by decide,
   (C4_lifecycle c2Cfg ⟨Rocket.app 1⟩ (Rocket.app 0) [c1Wit] c4Res (by decide)).2.1⟩

/-- Claim C5: during the Uninitialized→Ready transition, the application's
route set is remounted under the triggering request's resolved base path
exactly when the behaviour is `RemountAndInclude` and that base path is
non-empty; in every other case the application is used as defined; and the
handle built that way is what gets stored as `Ready` in the same step. -/
theorem C5_remount (config : Config) (req : Request) (r : Rocket)
    (out : Client × LazyClient × Bool)
    (h : get_client_from_lazy config req (LazyClient.uninitialized (some r))
        = some out) :
    ∃ bp, base_path req = some bp
      ∧ out.2.1 = LazyClient.ready out.1
      ∧ (out.1.rocket = Rocket.mounted bp r ↔
          (config.base_path_behaviour = BasePathBehaviour.remountAndInclude ∧ bp ≠ []))
      ∧ (¬(config.base_path_behaviour = BasePathBehaviour.remountAndInclude ∧ bp ≠ []) →
          out.1.rocket = r) := by
  cases hbp : base_path req with
  | none => simp [get_client_from_lazy, hbp] at h
  | some bp =>
    have hstep : get_client_from_lazy config req (LazyClient.uninitialized (some r))
        = some (built_client config bp r,
            LazyClient.ready (built_client config bp r), true) := by
      simp [get_client_from_lazy, hbp]
    rw [hstep] at h
    injection h with h
    rw [← h]
    refine ⟨bp, rfl, rfl, ?_, ?_⟩
    · by_cases hc : config.base_path_behaviour = BasePathBehaviour.remountAndInclude ∧ bp ≠ []
      · simp only [built_client, if_pos hc]
        simp [hc]
      · simp only [built_client, if_neg hc]
        constructor
        · intro heq
          exact absurd heq.symm (mounted_ne r bp)
        · intro hcond
          exact absurd hcond hc
    · intro hnc
      simp only [built_client, if_neg hnc]

/-- The `RemountAndInclude` configuration used by the C5 witness. -/
def c5Cfg : Config :=
  { base_path_behaviour := BasePathBehaviour.remountAndInclude, response_types := [],
    default_response_type := ResponseType.auto }

/-- The transition output of the C5 witness: the application remounted
under `/base-path`. -/
def c5Out : Client × LazyClient × Bool :=
  (⟨Rocket.mounted (("/base-path").toList) (Rocket.app 0)⟩,
   LazyClient.ready ⟨Rocket.mounted (("/base-path").toList) (Rocket.app 0)⟩, true)

theorem C5_witness :
    ∃ bp, base_path c10Req = some bp
      ∧ c5Out.2.1 = LazyClient.ready c5Out.1
      ∧ (c5Out.1.rocket = Rocket.mounted bp (Rocket.app 0) ↔
          (c5Cfg.base_path_behaviour = BasePathBehaviour.remountAndInclude ∧ bp ≠ []))
      ∧ (¬(c5Cfg.base_path_behaviour = BasePathBehaviour.remountAndInclude ∧ bp ≠ []) →
          c5Out.1.rocket = Rocket.app 0) :=
  C5_remount c5Cfg c10Req (Rocket.app 0) c5Out (by decide)

/-! ## Claims C6 and C7 -/

/-- Claim C7: the declared body encoding computed inside
`create_lambda_response` equals the spec computation: content-type header
value (empty string when absent), substring before the first `;`,
lowercased, looked up in `Config.responseTypes`, with
`Config.defaultResponseType` when the lookup finds nothing. -/
theorem C7_declared_encoding (config : Config) (headers : List (Str × Str)) :
    response_type_of config headers = declared_encoding_spec config headers := by
  simp only [response_type_of, declared_encoding_spec]
  rw [strSplit_headD]

theorem response_body_err_iff (decode : List Nat → Option Str) (config : Config)
    (res : LocalResponse) :
    (∃ e, response_body decode config res = Except.error e) ↔
      (response_type_of config res.headers = ResponseType.text
        ∧ ∃ b, res.bytes = some b ∧ decode b = none) := by
  cases hb : res.bytes with
  | none =>
    have hrb : response_body decode config res = Except.ok Body.empty := by
      simp [response_body, hb]
    rw [hrb]
    constructor
    · rintro ⟨e, he⟩; cases he
    · rintro ⟨-, b2, h2, -⟩; cases h2
  | some b =>
    cases hrt : response_type_of config res.headers with
    | auto =>
      cases hd : decode b with
      | some s =>
        have hrb : response_body decode config res = Except.ok (Body.text s) := by
          simp [response_body, hb, hrt, hd]
        rw [hrb]
        constructor
        · rintro ⟨e, he⟩; cases he
        · rintro ⟨hc, -⟩; cases hc
      | none =>
        have hrb : response_body decode config res = Except.ok (Body.binary b) := by
          simp [response_body, hb, hrt, hd]
        rw [hrb]
        constructor
        · rintro ⟨e, he⟩; cases he
        · rintro ⟨hc, -⟩; cases hc
    | text =>
      cases hd : decode b with
      | some s =>
        have hrb : response_body decode config res = Except.ok (Body.text s) := by
          simp [response_body, hb, hrt, hd]
        rw [hrb]
        constructor
        · rintro ⟨e, he⟩; cases he
        · rintro ⟨-, b2, h2, hd2⟩
          injection h2 with h2
          rw [← h2, hd] at hd2
          cases hd2
      | none =>
        have hrb : response_body decode config res
            = Except.error (RocketLambError.invalidResponse
                (("failed to read response body as UTF-8").toList)) := by
          simp [response_body, hb, hrt, hd]
        rw [hrb]
        exact ⟨fun _ => ⟨rfl, b, rfl, hd⟩, fun _ => ⟨_, rfl⟩⟩
    | binary =>
      have hrb : response_body decode config res = Except.ok (Body.binary b) := by
        simp [response_body, hb, hrt]
      rw [hrb]
      constructor
      · rintro ⟨e, he⟩; cases he
      · rintro ⟨hc, -⟩; cases hc

theorem create_lambda_err_iff (decode : List Nat → Option Str)
    (hdrOk : Str × Str → Bool) (config : Config) (res : LocalResponse) :
    (∃ e, create_lambda_response decode hdrOk config res = Except.error e) ↔
      ((∃ e, response_body decode config res = Except.error e)
        ∨ res.headers.all hdrOk = false) := by
  cases hbody : response_body decode config res with
  | error e =>
    simp [create_lambda_response, hbody]
  | ok body =>
    cases hall : res.headers.all hdrOk <;>
      simp [create_lambda_response, hbody, hall]

/-- Claim C6: when `create_lambda_response` succeeds, the body is `Empty`
with no bytes; under `Auto` it is `Text` of the decoded string on UTF-8
success and `Binary` of the identical original bytes on failure; under
`Text` it is `Text` of the decoded string; under `Binary` it is `Binary`
of the original bytes.  It fails exactly when a mandated-Text body is not
valid UTF-8 (`InvalidResponse`) or header assembly fails. -/
theorem C6_response_body (decode : List Nat → Option Str)
    (hdrOk : Str × Str → Bool) (config : Config) (res : LocalResponse) :
    (∀ out, create_lambda_response decode hdrOk config res = Except.ok out →
      ((res.bytes = none → out.body = Body.empty)
        ∧ ∀ b, res.bytes = some b →
            ((response_type_of config res.headers = ResponseType.auto →
                (∀ s, decode b = some s → out.body = Body.text s)
                ∧ (decode b = none → out.body = Body.binary b))
              ∧ (response_type_of config res.headers = ResponseType.text →
                  ∃ s, decode b = some s ∧ out.body = Body.text s)
              ∧ (response_type_of config res.headers = ResponseType.binary →
                  out.body = Body.binary b))))
    ∧ ((∃ e, create_lambda_response decode hdrOk config res = Except.error e) ↔
        ((response_type_of config res.headers = ResponseType.text
            ∧ ∃ b, res.bytes = some b ∧ decode b = none)
          ∨ res.headers.all hdrOk = false)) := by
  have hiff := (create_lambda_err_iff decode hdrOk config res).trans
    (or_congr_left (response_body_err_iff decode config res))
  refine ⟨?_, hiff⟩
  intro out hout
  have hbody : ∃ body, response_body decode config res = Except.ok body
      ∧ out.body = body := by
    cases hb : response_body decode config res with
    | error e =>
      rw [create_lambda_response, hb] at hout
      cases hout
    | ok body =>
      rw [create_lambda_response, hb] at hout
      cases hall : res.headers.all hdrOk with
      | false => rw [hall] at hout; cases hout
      | true =>
        rw [hall] at hout
        simp only [if_true] at hout
        injection hout with hout
        exact ⟨body, rfl, by rw [← hout]⟩
  obtain ⟨body, hb, hob⟩ := hbody
  constructor
  · intro hn
    simp only [response_body, hn] at hb
    injection hb with hb
    rw [hob, ← hb]
  · intro b hsome
    simp only [response_body, hsome] at hb
    refine ⟨?_, ?_, ?_⟩
    · intro hrt
      simp only [hrt] at hb
      constructor
      · intro s hds
        simp only [hds] at hb
        injection hb with hb
        rw [hob, ← hb]
      · intro hdn
        simp only [hdn] at hb
        injection hb with hb
        rw [hob, ← hb]
    · intro hrt
      simp only [hrt] at hb
      cases hd : decode b with
      | none => simp only [hd] at hb; cases hb
      | some s =>
        simp only [hd] at hb
        injection hb with hb
        exact ⟨s, rfl, by rw [hob, ← hb]⟩
    · intro hrt
      simp only [hrt] at hb
      injection hb with hb
      rw [hob, ← hb]

/-- The configuration mapping `text/plain` to the mandated `Text`
encoding. -/
def c6Cfg : Config :=
  { base_path_behaviour := BasePathBehaviour.incl,
    response_types := [((("text/plain").toList), ResponseType.text)],
    default_response_type := ResponseType.auto }

/-- A framework response declaring `text/plain` whose body bytes are not
valid UTF-8 under the witness decoder. -/
def c6Res : LocalResponse :=
  { status := 200,
    headers := [((("Content-Type").toList), (("text/plain; charset=utf-8").toList))],
    bytes := some [255] }

theorem C6_witness :
    ∃ e, create_lambda_response (fun _ => none) (fun _ => true) c6Cfg c6Res
        = Except.error e :=
  (C6_response_body (fun _ => none) (fun _ => true) c6Cfg c6Res).2.mpr
    (Or.inl ⟨by decide, [255], rfl, rfl⟩)

/-! ## Claim C8 -/

instance exceptDecEq {ε α : Type} [DecidableEq ε] [DecidableEq α] :
    DecidableEq (Except ε α) := fun x y =>
  match x, y with
  | Except.error a, Except.error b =>
    if h : a = b then isTrue (by rw [h])
    else isFalse (fun hc => by injection hc with hc; exact h hc)
  | Except.ok a, Except.ok b =>
    if h : a = b then isTrue (by rw [h])
    else isFalse (fun hc => by injection hc with hc; exact h hc)
  | Except.error _, Except.ok _ => isFalse (fun hc => by cases hc)
  | Except.ok _, Except.error _ => isFalse (fun hc => by cases hc)

/-- The closed set of method names accepted by `to_rocket_method`. -/
def methodNames : List Str :=
  [("GET").toList, ("PUT").toList, ("POST").toList, ("DELETE").toList,
   ("OPTIONS").toList, ("HEAD").toList, ("TRACE").toList, ("CONNECT").toList,
   ("PATCH").toList]

theorem to_rocket_method_ok_iff (m : Str) :
    (∃ x, to_rocket_method m = Except.ok x) ↔ m ∈ methodNames := by
  by_cases hm : m ∈ methodNames
  · simp only [methodNames, List.mem_cons, List.not_mem_nil, or_false] at hm
    refine iff_of_true ?_ (by simpa [methodNames, List.mem_cons] using hm)
    rcases hm with rfl | rfl | rfl | rfl | rfl | rfl | rfl | rfl | rfl
    · exact ⟨Method.get, by decide⟩
    · exact ⟨Method.put, by decide⟩
    · exact ⟨Method.post, by decide⟩
    · exact ⟨Method.delete, by decide⟩
    · exact ⟨Method.options, by decide⟩
    · exact ⟨Method.head, by decide⟩
    · exact ⟨Method.trace, by decide⟩
    · exact ⟨Method.connect, by decide⟩
    · exact ⟨Method.patch, by decide⟩
  · refine iff_of_false ?_ hm
    simp only [methodNames, List.mem_cons, List.not_mem_nil, or_false, not_or] at hm
    obtain ⟨h1, h2, h3, h4, h5, h6, h7, h8, h9⟩ := hm
    rintro ⟨x, hx⟩
    simp only [to_rocket_method] at hx
    rw [if_neg h1, if_neg h2, if_neg h3, if_neg h4, if_neg h5, if_neg h6, if_neg h7,
      if_neg h8, if_neg h9] at hx
    cases hx

theorem decodeHeaders_ok_forall2 (toStr : List Nat → Option Str)
    (hs : List (Str × List Nat)) (ds : List (Str × Str))
    (h : decodeHeaders toStr hs = Except.ok ds) :
    List.Forall₂
      (fun (p : Str × List Nat) (q : Str × Str) => q.1 = p.1 ∧ toStr p.2 = some q.2)
      hs ds := by
  induction hs generalizing ds with
  | nil =>
    simp only [decodeHeaders] at h
    injection h with h
    rw [← h]
    exact List.Forall₂.nil
  | cons p rest ih =>
    obtain ⟨n, v⟩ := p
    simp only [decodeHeaders] at h
    cases hts : toStr v with
    | none => rw [hts] at h; cases h
    | some s =>
      rw [hts] at h
      cases hrec : decodeHeaders toStr rest with
      | error e => rw [hrec] at h; cases h
      | ok ds' =>
        rw [hrec] at h
        simp only [Except.map] at h
        injection h with h
        rw [← h]
        exact List.Forall₂.cons ⟨rfl, hts⟩ (ih ds' hrec)

theorem decodeHeaders_err (toStr : List Nat → Option Str)
    (hs : List (Str × List Nat)) (e : RocketLambError)
    (h : decodeHeaders toStr hs = Except.error e) :
    ∃ n v, (n, v) ∈ hs ∧ toStr v = none
      ∧ e = RocketLambError.invalidRequest
          ((("invalid value for header \x27").toList) ++ n ++ (("\x27").toList)) := by
  induction hs with
  | nil => simp only [decodeHeaders] at h; cases h
  | cons p rest ih =>
    obtain ⟨n, v⟩ := p
    simp only [decodeHeaders] at h
    cases hts : toStr v with
    | none =>
      rw [hts] at h
      injection h with h
      exact ⟨n, v, List.mem_cons_self _ _, hts, h.symm⟩
    | some s =>
      rw [hts] at h
      cases hrec : decodeHeaders toStr rest with
      | error e2 =>
        rw [hrec] at h
        simp only [Except.map] at h
        injection h with h
        obtain ⟨n2, v2, hmem, hv2, he2⟩ := ih (h ▸ hrec)
        exact ⟨n2, v2, List.mem_cons_of_mem _ hmem, hv2, he2⟩
      | ok ds' =>
        rw [hrec] at h
        simp only [Except.map] at h
        cases h

theorem decodeHeaders_ok_no_fail (toStr : List Nat → Option Str)
    (hs : List (Str × List Nat)) (ds : List (Str × Str))
    (h : decodeHeaders toStr hs = Except.ok ds) :
    ∀ p ∈ hs, toStr p.2 ≠ none := by
  induction hs generalizing ds with
  | nil => intro p hp; cases hp
  | cons q rest ih =>
    intro p hp hnone
    obtain ⟨n, v⟩ := q
    simp only [decodeHeaders] at h
    cases hts : toStr v with
    | none => rw [hts] at h; cases h
    | some s =>
      rw [hts] at h
      cases hrec : decodeHeaders toStr rest with
      | error e => rw [hrec] at h; simp only [Except.map] at h; cases h
      | ok ds' =>
        rcases List.mem_cons.mp hp with rfl | hp'
        · have hvn : toStr v = none := hnone
          rw [hts] at hvn
          cases hvn
        · exact ih ds' hrec p hp' hnone

/-- Claim C8: given that the run completes without aborting, translation
fails with `InvalidRequest` exactly when the method is outside the closed
set {GET, PUT, POST, DELETE, OPTIONS, HEAD, TRACE, CONNECT, PATCH} or some
header value fails to decode as text; on success headers are copied in
order (names preserved, values decoded) and body bytes pass through
unmodified; on a header failure with a supported method the error names the
offending header. -/
theorem C8_request_translation (toStr : List Nat → Option Str) (enc : Str → Str)
    (config : Config) (req : Request) (out : Except RocketLambError LocalRequest)
    (h : create_rocket_request toStr enc config req = some out) :
    ((∃ e, out = Except.error e) ↔
        (req.method ∉ methodNames ∨ ∃ p ∈ req.headers, toStr p.2 = none))
    ∧ (∀ lr, out = Except.ok lr →
        lr.body = req.body
        ∧ List.Forall₂
            (fun (p : Str × List Nat) (q : Str × Str) => q.1 = p.1 ∧ toStr p.2 = some q.2)
            req.headers lr.headers)
    ∧ (req.method ∈ methodNames →
        ∀ e, out = Except.error e →
          ∃ n v, (n, v) ∈ req.headers ∧ toStr v = none
            ∧ e = RocketLambError.invalidRequest
                ((("invalid value for header \x27").toList) ++ n ++ (("\x27").toList))) := by
  cases hm : to_rocket_method req.method with
  | error e0 =>
    simp only [create_rocket_request, hm] at h
    injection h with h
    have hnotin : req.method ∉ methodNames := by
      intro hmem
      obtain ⟨x, hx⟩ := (to_rocket_method_ok_iff req.method).mpr hmem
      rw [hm] at hx
      cases hx
    refine ⟨iff_of_true ⟨e0, h.symm⟩ (Or.inl hnotin), ?_, ?_⟩
    · intro lr hlr
      rw [← h] at hlr
      cases hlr
    · intro hmem
      exact absurd hmem hnotin
  | ok mth =>
    have hmem : req.method ∈ methodNames :=
      (to_rocket_method_ok_iff req.method).mp ⟨mth, hm⟩
    cases hq : get_path_and_query enc config req with
    | none =>
      simp only [create_rocket_request, hm, hq] at h
      cases h
    | some uri =>
      cases hdh : decodeHeaders toStr req.headers with
      | error e1 =>
        simp only [create_rocket_request, hm, hq, hdh] at h
        injection h with h
        obtain ⟨n, v, hnv, hvnone, he⟩ := decodeHeaders_err toStr req.headers e1 hdh
        refine ⟨iff_of_true ⟨e1, h.symm⟩ (Or.inr ⟨(n, v), hnv, hvnone⟩), ?_, ?_⟩
        · intro lr hlr
          rw [← h] at hlr
          cases hlr
        · intro _ e he2
          rw [← h] at he2
          injection he2 with he2
          exact ⟨n, v, hnv, hvnone, he2 ▸ he⟩
      | ok ds =>
        simp only [create_rocket_request, hm, hq, hdh] at h
        injection h with h
        constructor
        · refine iff_of_false ?_ ?_
          · rintro ⟨e, he⟩
            rw [← h] at he
            cases he
          · rintro (hni | ⟨p, hp, hpn⟩)
            · exact hni hmem
            · exact decodeHeaders_ok_no_fail toStr req.headers ds hdh p hp hpn
        constructor
        · intro lr hlr
          rw [← h] at hlr
          injection hlr with hlr
          rw [← hlr]
          exact ⟨rfl, decodeHeaders_ok_forall2 toStr req.headers ds hdh⟩
        · intro _ e he
          rw [← h] at he
          cases he

/-- The request exercising the C8 witness: supported method, one decodable
and one undecodable header value under the witness decoder. -/
def c8Req : Request :=
  { c1Wit with
    headers := [((("x-good").toList), [65]), ((("x-bad").toList), [200])] }

/-- The witness header-value decoder: value `[200]` is undecodable,
everything else decodes to `A`. -/
def c8ToStr : List Nat → Option Str :=
  fun v => if v = [200] then none else some ['A']

/-- The translation outcome at the C8 witness input. -/
def c8Out : Except RocketLambError LocalRequest :=
  Except.error (RocketLambError.invalidRequest
    ((("invalid value for header \x27").toList) ++ (("x-bad").toList)
      ++ (("\x27").toList)))

theorem C8_witness :
    create_rocket_request c8ToStr id c2Cfg c8Req = some c8Out
    ∧ (∃ e, c8Out = Except.error e) :=
  ⟨by decide,
   (C8_request_translation c8ToStr id c2Cfg c8Req c8Out (by decide)).1.mpr
     (Or.inr ⟨((("x-bad").toList), [200]), by decide, by decide⟩)⟩

end RocketLamb
